import Mathlib

/-!
Verification of the TermUI terminal-UI toolkit (single header `termui.hpp`).

This file gives a shallow embedding of the data model and the pure parts of
the operations of the library, translated from the C++ source, together with
theorems settling the frozen claims C1 - C10.

Modelling conventions:
- C++ `std::string` values that are measured byte-by-byte by the UTF-8
  helpers are modelled as `List Nat` (one `Nat` per byte, each < 256 for real
  inputs; the helpers read bytes only through comparisons and bit masks that
  are faithful for any `Nat`).
- Strings that are only stored, concatenated and compared (list items, page
  titles, rendered escape sequences) are modelled as Lean `String`.
- C++ `int` values that are non-negative in every reachable state
  (list cursor, tab indices, column widths) are modelled as `Nat`;
  the page scroll offset and scroll amounts are modelled as `Int`,
  matching the `int` arithmetic with `max`/`min` in the source.
- `double` (the progress-bar value) is modelled as the exact rationals `ℚ`;
  the clamp and the two `x + 0.5` round-half-up casts are exact in `ℚ`.
- Side-effecting callbacks (`actions_[i]`, `on_select_`) are modelled by
  presence flags plus a list of emitted invocation events, so that claims
  about which callbacks fire (and in which order) are statable.
-/

namespace termui

-- ─── Key codes (detail::Key, termui.hpp:381-393) ────────────────────────────

inductive Key where
  | KEY_NONE
  | KEY_QUIT
  | KEY_CTRL_C
  | KEY_LEFT
  | KEY_RIGHT
  | KEY_UP
  | KEY_DOWN
  | KEY_ENTER
  | KEY_SPACE
  | KEY_RESIZE
  | KEY_OTHER
deriving DecidableEq, Repr

-- ─── UTF-8 helpers (termui.hpp:87-130) ──────────────────────────────────────

/-- Classification of a lead byte by its high bits: the byte-length of the
UTF-8 sequence it starts, or 0 for a continuation or invalid lead byte.
This is the ternary chain in `detail::utf8_char_len` (termui.hpp:91-95). -/
def utf8_lead_len (c : Nat) : Nat :=
  if c < 0x80 then 1
  else if c &&& 0xE0 = 0xC0 then 2
  else if c &&& 0xF0 = 0xE0 then 3
  else if c &&& 0xF8 = 0xF0 then 4
  else 0

/-- `detail::utf8_char_len(s, i)` (termui.hpp:87-98), phrased on the suffix
`s[i..]`: the length of the UTF-8 sequence starting at the first byte, or 0
if the classification fails or the sequence would run past the end of the
string (`i + n > len` becomes `rest.length + 1 < n`). -/
def utf8_char_len : List Nat → Nat
  | [] => 0
  | c :: rest =>
    let n := utf8_lead_len c
    if n = 0 ∨ rest.length + 1 < n then 0 else n

/-- `utf8_display_width` (termui.hpp:105-116): one column per decoded
codepoint; a byte on which `utf8_char_len` fails is skipped (advance one
byte, count nothing). The loop index `i` of the source is represented by
recursing on the suffix `s[i..]`. -/
def utf8_display_width (s : List Nat) : Nat :=
  match s with
  | [] => 0
  | c :: rest =>
    let cl := utf8_char_len (c :: rest)
    if cl = 0 then utf8_display_width rest
    else utf8_display_width (rest.drop (cl - 1)) + 1
termination_by s.length
decreasing_by
  · simp
  · simp [List.length_drop]; omega

/-- The number of bytes consumed by the loop of `utf8_truncate`
(termui.hpp:119-128), i.e. the final value of `i`: the loop runs while
bytes remain and fewer than `maxWidth` codepoints have been counted. -/
def utf8_truncate_bytes : List Nat → Nat → Nat
  | _, 0 => 0
  | [], _ + 1 => 0
  | c :: rest, maxWidth + 1 =>
    let cl := utf8_char_len (c :: rest)
    if cl = 0 then 1 + utf8_truncate_bytes rest (maxWidth + 1)
    else cl + utf8_truncate_bytes (rest.drop (cl - 1)) maxWidth
termination_by s _ => s.length
decreasing_by
  · simp
  · simp [List.length_drop]; omega

/-- `utf8_truncate` (termui.hpp:119-130): `s.substr(0, i)` for the final
loop index `i`. -/
def utf8_truncate (s : List Nat) (maxWidth : Nat) : List Nat :=
  s.take (utf8_truncate_bytes s maxWidth)

/-- Valid UTF-8 byte strings: a sequence of complete codepoint encodings.
Each lead byte classifies to a length `n ≥ 1`, its `n - 1` continuation
bytes are present and lie in `0x80..0xBF`, and the remainder is valid. -/
inductive ValidUtf8 : List Nat → Prop where
  | nil : ValidUtf8 []
  | cons {c : Nat} {rest : List Nat}
      (h1 : 1 ≤ utf8_lead_len c)
      (h2 : utf8_lead_len c - 1 ≤ rest.length)
      (h3 : ∀ b ∈ rest.take (utf8_lead_len c - 1), 0x80 ≤ b ∧ b < 0xC0)
      (h4 : ValidUtf8 (rest.drop (utf8_lead_len c - 1))) :
      ValidUtf8 (c :: rest)

theorem utf8_char_len_eq (c : Nat) (rest : List Nat) :
    utf8_char_len (c :: rest) =
      if utf8_lead_len c = 0 ∨ rest.length + 1 < utf8_lead_len c then 0
      else utf8_lead_len c := rfl

theorem utf8_display_width_cons (c : Nat) (rest : List Nat) :
    utf8_display_width (c :: rest) =
      if utf8_char_len (c :: rest) = 0 then utf8_display_width rest
      else utf8_display_width (rest.drop (utf8_char_len (c :: rest) - 1)) + 1 := by
  rw [utf8_display_width]

theorem utf8_truncate_bytes_cons (c : Nat) (rest : List Nat) (maxWidth : Nat) :
    utf8_truncate_bytes (c :: rest) (maxWidth + 1) =
      if utf8_char_len (c :: rest) = 0
      then 1 + utf8_truncate_bytes rest (maxWidth + 1)
      else utf8_char_len (c :: rest)
           + utf8_truncate_bytes (rest.drop (utf8_char_len (c :: rest) - 1)) maxWidth := by
  rw [utf8_truncate_bytes]

theorem utf8_char_len_ne_zero {c : Nat} {rest : List Nat}
    (h : utf8_char_len (c :: rest) ≠ 0) :
    utf8_char_len (c :: rest) = utf8_lead_len c ∧
    1 ≤ utf8_lead_len c ∧ utf8_lead_len c - 1 ≤ rest.length := by
  rw [utf8_char_len_eq] at h ⊢
  split at h
  · exact absurd rfl h
  · next hcond =>
    push_neg at hcond
    rw [if_neg]
    · exact ⟨rfl, by omega, by omega⟩
    · push_neg
      exact hcond

theorem utf8_char_len_take {c : Nat} {rest : List Nat}
    (h : utf8_char_len (c :: rest) ≠ 0) (k : Nat) :
    utf8_char_len (c :: rest.take (utf8_char_len (c :: rest) - 1 + k)) =
      utf8_char_len (c :: rest) := by
  obtain ⟨he, h1, h2⟩ := utf8_char_len_ne_zero h
  rw [he, utf8_char_len_eq, List.length_take, if_neg]
  omega

theorem utf8_char_len_take_zero {c : Nat} {rest : List Nat}
    (h : utf8_char_len (c :: rest) = 0) (k : Nat) :
    utf8_char_len (c :: rest.take k) = 0 := by
  rw [utf8_char_len_eq] at h
  rw [utf8_char_len_eq, List.length_take]
  split at h
  · next hc => rw [if_pos]; omega
  · next hc => rw [if_pos]; left; exact h

theorem utf8_width_truncate (s : List Nat) (maxWidth : Nat) :
    utf8_display_width (List.take (utf8_truncate_bytes s maxWidth) s)
      = min maxWidth (utf8_display_width s) := by
  induction s, maxWidth using utf8_truncate_bytes.induct with
  | case1 s => simp [utf8_truncate_bytes, utf8_display_width]
  | case2 n => simp [utf8_truncate_bytes, utf8_display_width]
  | case3 c rest maxWidth cl hcl ih =>
    unfold cl at hcl
    rw [utf8_truncate_bytes_cons, if_pos hcl]
    rw [Nat.add_comm 1 _, List.take_succ_cons]
    rw [utf8_display_width_cons c (List.take (utf8_truncate_bytes rest (maxWidth + 1)) rest),
        if_pos (utf8_char_len_take_zero hcl _)]
    rw [utf8_display_width_cons c rest, if_pos hcl]
    exact ih
  | case4 c rest maxWidth cl hcl ih =>
    unfold cl at hcl ih
    rw [utf8_truncate_bytes_cons, if_neg hcl]
    obtain ⟨he, h1, h2⟩ := utf8_char_len_ne_zero hcl
    have hsplit : utf8_char_len (c :: rest)
        + utf8_truncate_bytes (rest.drop (utf8_char_len (c :: rest) - 1)) maxWidth
        = (utf8_char_len (c :: rest) - 1
           + utf8_truncate_bytes (rest.drop (utf8_char_len (c :: rest) - 1)) maxWidth) + 1 := by
      omega
    rw [hsplit, List.take_succ_cons]
    rw [utf8_display_width_cons c _, utf8_char_len_take hcl _]
    rw [if_neg hcl]
    rw [List.drop_take]
    have harith : utf8_char_len (c :: rest) - 1
        + utf8_truncate_bytes (rest.drop (utf8_char_len (c :: rest) - 1)) maxWidth
        - (utf8_char_len (c :: rest) - 1)
        = utf8_truncate_bytes (rest.drop (utf8_char_len (c :: rest) - 1)) maxWidth := by
      omega
    rw [harith, ih]
    rw [utf8_display_width_cons c rest, if_neg hcl]
    omega

theorem utf8_truncate_bytes_valid (s : List Nat) (maxWidth : Nat) (hv : ValidUtf8 s) :
    ValidUtf8 (List.take (utf8_truncate_bytes s maxWidth) s) := by
  induction s, maxWidth using utf8_truncate_bytes.induct with
  | case1 s => simpa [utf8_truncate_bytes] using ValidUtf8.nil
  | case2 n => simpa [utf8_truncate_bytes] using ValidUtf8.nil
  | case3 c rest maxWidth cl hcl ih =>
    unfold cl at hcl
    cases hv with
    | cons h1 h2 h3 h4 =>
      rw [utf8_char_len_eq, if_neg (by omega)] at hcl
      omega
  | case4 c rest maxWidth cl hcl ih =>
    unfold cl at hcl ih
    cases hv with
    | cons h1 h2 h3 h4 =>
      obtain ⟨he, h1', h2'⟩ := utf8_char_len_ne_zero hcl
      rw [utf8_truncate_bytes_cons, if_neg hcl]
      have hsplit : utf8_char_len (c :: rest)
          + utf8_truncate_bytes (rest.drop (utf8_char_len (c :: rest) - 1)) maxWidth
          = (utf8_char_len (c :: rest) - 1
             + utf8_truncate_bytes (rest.drop (utf8_char_len (c :: rest) - 1)) maxWidth) + 1 := by
        omega
      rw [hsplit, List.take_succ_cons]
      refine ValidUtf8.cons h1 ?_ ?_ ?_
      · rw [List.length_take]
        omega
      · intro b hb
        apply h3
        rw [List.take_take] at hb
        have hmin : (utf8_lead_len c - 1)
            ⊓ (utf8_char_len (c :: rest) - 1
               + utf8_truncate_bytes (rest.drop (utf8_char_len (c :: rest) - 1)) maxWidth)
            = utf8_lead_len c - 1 := by omega
        rw [hmin] at hb
        exact hb
      · rw [List.drop_take]
        have harith : utf8_char_len (c :: rest) - 1
            + utf8_truncate_bytes (rest.drop (utf8_char_len (c :: rest) - 1)) maxWidth
            - (utf8_lead_len c - 1)
            = utf8_truncate_bytes (rest.drop (utf8_char_len (c :: rest) - 1)) maxWidth := by
          omega
        rw [harith, ← he]
        exact ih (he ▸ h4)

/-- C1: for every valid UTF-8 byte string s and every n, the display width of
the truncation of s to n columns equals min n (display width of s); the
truncation is a byte prefix of s; and the truncation is itself valid UTF-8,
so it never ends in the middle of a multi-byte UTF-8 sequence. -/
theorem C1_utf8_truncate_width (s : List Nat) (n : Nat) (h : ValidUtf8 s) :
    utf8_display_width (utf8_truncate s n) = min n (utf8_display_width s)
    ∧ (∃ t, s = utf8_truncate s n ++ t)
    ∧ ValidUtf8 (utf8_truncate s n) := by
  refine ⟨utf8_width_truncate s n,
    ⟨s.drop (utf8_truncate_bytes s n), (List.take_append_drop _ s).symm⟩,
    utf8_truncate_bytes_valid s n h⟩

/-- Witness for C1 at the byte string "aeACUTE!" = [97, 195, 169, 33] and n = 2. -/
theorem C1_utf8_truncate_width_witness :
    ValidUtf8 [97, 195, 169, 33]
    ∧ (utf8_display_width (utf8_truncate [97, 195, 169, 33] 2)
         = min 2 (utf8_display_width [97, 195, 169, 33])
       ∧ (∃ t, [97, 195, 169, 33] = utf8_truncate [97, 195, 169, 33] 2 ++ t)
       ∧ ValidUtf8 (utf8_truncate [97, 195, 169, 33] 2)) := by
  have hv : ValidUtf8 [97, 195, 169, 33] := by
    refine ValidUtf8.cons (by decide) (by decide) (by decide) ?_
    show ValidUtf8 [195, 169, 33]
    refine ValidUtf8.cons (by decide) (by decide) (by decide) ?_
    show ValidUtf8 [33]
    refine ValidUtf8.cons (by decide) (by decide) (by decide) ?_
    show ValidUtf8 []
    exact ValidUtf8.nil
  exact ⟨hv, C1_utf8_truncate_width _ 2 hv⟩


-- ─── Colors and Style (termui.hpp:33-80) ────────────────────────────────────

inductive Color where
  | Default
  | Black | Red | Green | Yellow | Blue | Magenta | Cyan | White
  | BrightBlack | BrightRed | BrightGreen | BrightYellow
  | BrightBlue | BrightMagenta | BrightCyan | BrightWhite
deriving DecidableEq, Repr

def Color.code : Color → Nat
  | .Default => 0
  | .Black => 30 | .Red => 31 | .Green => 32 | .Yellow => 33
  | .Blue => 34 | .Magenta => 35 | .Cyan => 36 | .White => 37
  | .BrightBlack => 90 | .BrightRed => 91 | .BrightGreen => 92
  | .BrightYellow => 93 | .BrightBlue => 94 | .BrightMagenta => 95
  | .BrightCyan => 96 | .BrightWhite => 97

structure Style where
  fg : Color := .Default
  bg : Color := .Default
  is_bold : Bool := false
  is_underline : Bool := false
  is_reverse : Bool := false
deriving DecidableEq, Repr

def Style.bold (s : Style) : Style := { s with is_bold := true }
def Style.underline (s : Style) : Style := { s with is_underline := true }
def Style.reversed (s : Style) : Style := { s with is_reverse := true }
def Style.with_fg (s : Style) (c : Color) : Style := { s with fg := c }
def Style.with_bg (s : Style) (c : Color) : Style := { s with bg := c }

def Style.begin_seq (s : Style) : String :=
  let seq := "\x1b[0"
  let seq := if s.is_bold then seq ++ ";1" else seq
  let seq := if s.is_underline then seq ++ ";4" else seq
  let seq := if s.is_reverse then seq ++ ";7" else seq
  let seq := if s.fg ≠ Color.Default then seq ++ ";" ++ toString s.fg.code else seq
  let seq := if s.bg ≠ Color.Default then seq ++ ";" ++ toString (s.bg.code + 10) else seq
  seq ++ "m"

def Style.begin_seq_spec (s : Style) : String :=
  "\x1b[0"
  ++ (if s.is_bold then ";1" else "")
  ++ (if s.is_underline then ";4" else "")
  ++ (if s.is_reverse then ";7" else "")
  ++ (if s.fg ≠ Color.Default then ";" ++ toString s.fg.code else "")
  ++ (if s.bg ≠ Color.Default then ";" ++ toString (s.bg.code + 10) else "")
  ++ "m"

theorem begin_seq_eq_spec (s : Style) : s.begin_seq = s.begin_seq_spec := by
  unfold Style.begin_seq Style.begin_seq_spec
  apply String.ext
  split <;> split <;> split <;> split <;> split <;>
    simp [String.data_append]

inductive StyleOp where
  | bold
  | underline
  | reversed
  | fgOp (c : Color)
  | bgOp (c : Color)
deriving DecidableEq, Repr

def applyOp (s : Style) : StyleOp → Style
  | .bold => s.bold
  | .underline => s.underline
  | .reversed => s.reversed
  | .fgOp c => s.with_fg c
  | .bgOp c => s.with_bg c

def applyOps (s : Style) (ops : List StyleOp) : Style := ops.foldl applyOp s

def StyleOp.kind : StyleOp → Nat
  | .bold => 0
  | .underline => 1
  | .reversed => 2
  | .fgOp _ => 3
  | .bgOp _ => 4

theorem applyOp_comm (s : Style) (x y : StyleOp) (h : x.kind ≠ y.kind) :
    applyOp (applyOp s x) y = applyOp (applyOp s y) x := by
  cases x <;> cases y <;>
    simp [applyOp, Style.bold, Style.underline, Style.reversed,
          Style.with_fg, Style.with_bg, StyleOp.kind] at h ⊢

theorem applyOps_perm {ops ops' : List StyleOp} (hp : ops.Perm ops') :
    (ops.map StyleOp.kind).Nodup → ∀ s : Style, applyOps s ops = applyOps s ops' := by
  induction hp with
  | nil => exact fun _ _ => rfl
  | cons x hp ih =>
    intro hnd s
    simp only [List.map_cons, List.nodup_cons] at hnd
    simp only [applyOps, List.foldl_cons]
    exact ih hnd.2 _
  | swap x y l =>
    intro hnd s
    simp only [List.map_cons, List.nodup_cons, List.mem_cons, not_or] at hnd
    simp only [applyOps, List.foldl_cons]
    rw [applyOp_comm s y x hnd.1.1]
  | trans h12 h23 ih1 ih2 =>
    intro hnd s
    exact (ih1 hnd s).trans (ih2 ((h12.map StyleOp.kind).nodup hnd) s)


/-- C2: begin_seq emits exactly ESC[0, then ;1 iff bold, ;4 iff underline,
;7 iff reverse, then ;code iff the foreground is not Default, then
;code+10 iff the background is not Default, terminated by m, with defaulted
attributes contributing nothing; and applying any duplicate-free set of
chainable mutators in any order yields the same Style, so the emitted order
is fixed regardless of mutator order. -/
theorem C2_style_begin_emission (s : Style) (ops ops' : List StyleOp)
    (hp : ops.Perm ops') (hnd : (ops.map StyleOp.kind).Nodup) :
    s.begin_seq = s.begin_seq_spec
    ∧ applyOps {} ops = applyOps {} ops' :=
  ⟨begin_seq_eq_spec s, applyOps_perm hp hnd {}⟩

/-- Witness for C2: a bold red-on-default style, with the two mutators
applied in both orders. -/
theorem C2_style_begin_emission_witness :
    ([StyleOp.bold, StyleOp.fgOp Color.Red].Perm
       [StyleOp.fgOp Color.Red, StyleOp.bold])
    ∧ ([StyleOp.bold, StyleOp.fgOp Color.Red].map StyleOp.kind).Nodup
    ∧ (Style.bold {} |>.with_fg Color.Red).begin_seq
        = (Style.bold {} |>.with_fg Color.Red).begin_seq_spec
    ∧ applyOps {} [StyleOp.bold, StyleOp.fgOp Color.Red]
        = applyOps {} [StyleOp.fgOp Color.Red, StyleOp.bold] := by
  have hp : ([StyleOp.bold, StyleOp.fgOp Color.Red].Perm
      [StyleOp.fgOp Color.Red, StyleOp.bold]) := by decide
  have hnd : ([StyleOp.bold, StyleOp.fgOp Color.Red].map StyleOp.kind).Nodup := by
    decide
  have h := C2_style_begin_emission (Style.bold {} |>.with_fg Color.Red) _ _ hp hnd
  exact ⟨hp, hnd, h.1, h.2⟩

-- ─── SelectableList (termui.hpp:590-738) ────────────────────────────────────

/-- A record of a callback invocation made by `handle_key` (the per-item
closure in `actions_`, or the list-level `on_select_` hook). -/
inductive CallbackEvent where
  | action (index : Nat)
  | on_select (index : Nat) (item : String)
deriving DecidableEq, Repr

/-- `SelectableList` state (termui.hpp:729-737). The C++ `actions_` vector of
nullable closures is modelled by `has_action` (presence flags) and the
nullable `on_select_` hook by `has_on_select`; the `int` cursor, which is
non-negative in every reachable state, is modelled as `Nat`. The two styles
carried by the widget play no role in the key-handling claims and are
omitted from the state. -/
structure SelectableList where
  items : List String := []
  has_action : List Bool := []
  selected : List Bool := []
  cursor : Nat := 0
  multi_select : Bool := false
  has_on_select : Bool := false
deriving DecidableEq, Repr

/-- `SelectableList::handle_key` (termui.hpp:664-689). Returns the new list
state, the consumed/changed flag that the C++ function returns, and the
callback invocations performed (in order). -/
def SelectableList.handle_key (l : SelectableList) (key : Key) :
    SelectableList × Bool × List CallbackEvent :=
  if l.items.isEmpty then (l, false, [])
  else match key with
  | .KEY_UP =>
    if 0 < l.cursor then ({ l with cursor := l.cursor - 1 }, true, [])
    else (l, false, [])
  | .KEY_DOWN =>
    if l.cursor + 1 < l.items.length then ({ l with cursor := l.cursor + 1 }, true, [])
    else (l, false, [])
  | .KEY_ENTER =>
    (l, true,
      (if ¬ l.has_action.isEmpty ∧ l.has_action.getD l.cursor false
       then [CallbackEvent.action l.cursor] else [])
      ++ (if l.has_on_select
          then [CallbackEvent.on_select l.cursor (l.items.getD l.cursor "")] else []))
  | .KEY_SPACE =>
    if l.multi_select then
      (if l.cursor < l.selected.length
       then { l with selected := l.selected.set l.cursor (!(l.selected.getD l.cursor false)) }
       else l, true, [])
    else (l, false, [])
  | _ => (l, false, [])

/-- The loop of `get_selected_items` (termui.hpp:652-658): walk the items by
index, keeping an item whenever its index carries a true selection flag.
Once the selection flags run out the guard `i < selected_.size()` is false
for every later index, so nothing more is kept. -/
def get_selected_items_zip : List String → List Bool → List String
  | [], _ => []
  | _ :: _, [] => []
  | x :: xs, true :: bs => x :: get_selected_items_zip xs bs
  | _ :: xs, false :: bs => get_selected_items_zip xs bs

/-- `SelectableList::get_selected_items` (termui.hpp:652-658). -/
def SelectableList.get_selected_items (l : SelectableList) : List String :=
  get_selected_items_zip l.items l.selected

theorem get_selected_items_zip_sublist (xs : List String) (bs : List Bool) :
    (get_selected_items_zip xs bs).Sublist xs := by
  induction xs generalizing bs with
  | nil => simp [get_selected_items_zip]
  | cons x xs ih =>
    cases bs with
    | nil => simp [get_selected_items_zip]
    | cons b bs =>
      cases b with
      | true => simpa [get_selected_items_zip] using (ih bs).cons₂ x
      | false => exact (ih bs).cons x

/-- C3: on a non-empty list, UP decrements the cursor and reports changed
when the cursor is positive and is an unchanged no-op at cursor 0; DOWN
mirrors this at the last index without wraparound; and the concrete 3-item
trace behaves as the claim states. -/
theorem C3_list_up_down (l : SelectableList) (h : l.items ≠ []) :
    (0 < l.cursor →
       l.handle_key .KEY_UP = ({ l with cursor := l.cursor - 1 }, true, []))
    ∧ (l.cursor = 0 → l.handle_key .KEY_UP = (l, false, []))
    ∧ (l.cursor + 1 < l.items.length →
       l.handle_key .KEY_DOWN = ({ l with cursor := l.cursor + 1 }, true, []))
    ∧ (l.cursor = l.items.length - 1 → l.handle_key .KEY_DOWN = (l, false, []))
    ∧ (l.items.length = 3 → l.cursor = 0 →
        l.handle_key .KEY_UP = (l, false, [])
        ∧ ((l.handle_key .KEY_DOWN).1.handle_key .KEY_DOWN).1.cursor = 2
        ∧ (l.handle_key .KEY_DOWN).2.1 = true
        ∧ (((l.handle_key .KEY_DOWN).1.handle_key .KEY_DOWN).1.handle_key .KEY_DOWN
            = (((l.handle_key .KEY_DOWN).1.handle_key .KEY_DOWN).1, false, []))) := by
  have hne : l.items.isEmpty = false := by
    cases hi : l.items with
    | nil => exact absurd hi h
    | cons a as => rfl
  refine ⟨?_, ?_, ?_, ?_, ?_⟩
  · intro hc
    simp [SelectableList.handle_key, hne, hc]
  · intro hc
    simp [SelectableList.handle_key, hne, hc]
  · intro hc
    simp [SelectableList.handle_key, hne, hc]
  · intro hc
    have hlen : 0 < l.items.length := List.length_pos.mpr h
    have : ¬ (l.cursor + 1 < l.items.length) := by omega
    simp [SelectableList.handle_key, hne, this]
  · intro h3 hc
    have e1 : l.handle_key .KEY_DOWN = ({ l with cursor := 1 }, true, []) := by
      simp [SelectableList.handle_key, hne, h3, hc]
    have e2 : ({ l with cursor := 1 } : SelectableList).handle_key .KEY_DOWN
        = ({ l with cursor := 2 }, true, []) := by
      simp [SelectableList.handle_key, hne, h3]
    have e3 : ({ l with cursor := 2 } : SelectableList).handle_key .KEY_DOWN
        = ({ l with cursor := 2 }, false, []) := by
      simp [SelectableList.handle_key, hne, h3]
    refine ⟨by simp [SelectableList.handle_key, hne, hc], ?_, ?_, ?_⟩
    · rw [e1]; simp only; rw [e2]
    · rw [e1]
    · rw [e1]; simp only; rw [e2]; simp only; rw [e3]



/-- Move the cursor to position `p` (as UP/DOWN navigation does, changing no
selection flag) and press SPACE: the state after `handle_key(KEY_SPACE)`. -/
def press_space_at (l : SelectableList) (p : Nat) : SelectableList :=
  ({ l with cursor := p }.handle_key .KEY_SPACE).1

/-- Press SPACE at each position of `ps` in order. -/
def press_space_seq (l : SelectableList) (ps : List Nat) : SelectableList :=
  ps.foldl press_space_at l

/-- The KEY_SPACE selection update (termui.hpp:681-682): toggle flag `i`
when it is in range, else leave the flags unchanged. -/
def toggle_at (sel : List Bool) (i : Nat) : List Bool :=
  if i < sel.length then sel.set i (!(sel.getD i false)) else sel

/-- Forget the cursor position (used to state that two list states agree on
everything except the cursor). -/
def erase_cursor (l : SelectableList) : SelectableList := { l with cursor := 0 }

theorem list_set_getD_self (sel : List Bool) (i : Nat) (h : i < sel.length) :
    sel.set i (sel.getD i false) = sel := by
  apply List.ext_getElem?
  intro n
  by_cases hn : n = i
  · subst hn
    rw [List.getElem?_set_self h, List.getD_eq_getElem?_getD,
        List.getElem?_eq_getElem h]
    rfl
  · exact List.getElem?_set_ne (Ne.symm hn)

theorem toggle_at_toggle_at (sel : List Bool) (i : Nat) :
    toggle_at (toggle_at sel i) i = sel := by
  unfold toggle_at
  by_cases h : i < sel.length
  · rw [if_pos h, if_pos (by rw [List.length_set]; exact h), List.set_set]
    have hg : (sel.set i (!(sel.getD i false))).getD i false = !(sel.getD i false) := by
      rw [List.getD_eq_getElem?_getD, List.getElem?_set_self h]
      rfl
    rw [hg, Bool.not_not, list_set_getD_self sel i h]
  · rw [if_neg h, if_neg h]

theorem toggle_at_comm (sel : List Bool) (i j : Nat) :
    toggle_at (toggle_at sel i) j = toggle_at (toggle_at sel j) i := by
  by_cases hij : i = j
  · subst hij; rfl
  · unfold toggle_at
    by_cases hi : i < sel.length <;> by_cases hj : j < sel.length
    · rw [if_pos hi, if_pos hj,
          if_pos (show j < (sel.set i (!(sel.getD i false))).length by
            rw [List.length_set]; exact hj),
          if_pos (show i < (sel.set j (!(sel.getD j false))).length by
            rw [List.length_set]; exact hi)]
      have hgj : (sel.set i (!(sel.getD i false))).getD j false = sel.getD j false := by
        rw [List.getD_eq_getElem?_getD, List.getElem?_set_ne hij,
            ← List.getD_eq_getElem?_getD]
      have hgi : (sel.set j (!(sel.getD j false))).getD i false = sel.getD i false := by
        rw [List.getD_eq_getElem?_getD, List.getElem?_set_ne (Ne.symm hij),
            ← List.getD_eq_getElem?_getD]
      rw [hgj, hgi, List.set_comm _ _ _ hij]
    · rw [if_pos hi, if_neg hj,
          if_neg (show ¬ j < (sel.set i (!(sel.getD i false))).length by
            rw [List.length_set]; exact hj),
          if_pos hi]
    · rw [if_neg hi, if_pos hj,
          if_neg (show ¬ i < (sel.set j (!(sel.getD j false))).length by
            rw [List.length_set]; exact hi)]
    · rw [if_neg hi, if_neg hj, if_neg hi]

theorem press_space_at_eq (l : SelectableList) (p : Nat) :
    press_space_at l p =
      { l with cursor := p,
               selected := if l.items.isEmpty = false ∧ l.multi_select = true
                           then toggle_at l.selected p else l.selected } := by
  obtain ⟨items, ha, sel, cur, ms, hos⟩ := l
  simp only [press_space_at, SelectableList.handle_key, toggle_at]
  by_cases hemp : items.isEmpty <;> by_cases hms : ms <;>
    (simp [hemp, hms]; try (split <;> simp))



theorem press_space_at_congr {l₁ l₂ : SelectableList}
    (h : erase_cursor l₁ = erase_cursor l₂) (p : Nat) :
    press_space_at l₁ p = press_space_at l₂ p := by
  obtain ⟨i₁, a₁, s₁, c₁, m₁, o₁⟩ := l₁
  obtain ⟨i₂, a₂, s₂, c₂, m₂, o₂⟩ := l₂
  simp only [erase_cursor, SelectableList.mk.injEq] at h
  obtain ⟨h1, h2, h3, -, h4, h5⟩ := h
  subst h1; subst h2; subst h3; subst h4; subst h5
  rw [press_space_at_eq, press_space_at_eq]

theorem erase_cursor_press (l : SelectableList) (p : Nat) :
    erase_cursor (press_space_at l p) =
      erase_cursor ({ l with selected := if l.items.isEmpty = false ∧ l.multi_select = true
                                         then toggle_at l.selected p else l.selected }) := by
  rw [press_space_at_eq]
  rfl

theorem press_space_swap (l : SelectableList) (x y : Nat) :
    erase_cursor (press_space_at (press_space_at l y) x) =
      erase_cursor (press_space_at (press_space_at l x) y) := by
  obtain ⟨i, a, s, c, m, o⟩ := l
  rw [press_space_at_eq, press_space_at_eq, press_space_at_eq, press_space_at_eq]
  simp only [erase_cursor]
  by_cases hc : i = []
  · simp [hc]
  · by_cases hm : m = true
    · simp [hc, hm, toggle_at_comm]
    · simp [hc, hm]

theorem press_space_seq_congr (ps : List Nat) :
    ∀ {l₁ l₂ : SelectableList}, erase_cursor l₁ = erase_cursor l₂ →
      erase_cursor (press_space_seq l₁ ps) = erase_cursor (press_space_seq l₂ ps) := by
  induction ps with
  | nil => intro l₁ l₂ h; exact h
  | cons p ps ih =>
    intro l₁ l₂ h
    simp only [press_space_seq, List.foldl_cons]
    exact ih (by rw [press_space_at_congr h p])

theorem press_space_seq_perm {ps ps' : List Nat} (hp : ps.Perm ps') :
    ∀ l : SelectableList,
      erase_cursor (press_space_seq l ps) = erase_cursor (press_space_seq l ps') := by
  induction hp with
  | nil => intro l; rfl
  | cons x hp ih =>
    intro l
    simp only [press_space_seq, List.foldl_cons]
    exact ih _
  | swap x y l' =>
    intro l
    simp only [press_space_seq, List.foldl_cons]
    exact press_space_seq_congr l' (press_space_swap l x y)
  | trans h12 h23 ih1 ih2 =>
    intro l
    exact (ih1 l).trans (ih2 l)

theorem handle_space_multi (l : SelectableList) (hm : l.multi_select = true)
    (hne : l.items.isEmpty = false) :
    l.handle_key .KEY_SPACE =
      ({ l with selected := toggle_at l.selected l.cursor }, true, []) := by
  obtain ⟨i, a, s, c, m, o⟩ := l
  simp only at hm hne
  subst hm
  simp only [SelectableList.handle_key, hne, toggle_at]
  by_cases hlt : c < s.length
  · simp [hlt]
  · simp [hlt]



/-- C4: on a non-empty multi-select list, pressing SPACE twice restores the
state exactly (and each press reports changed); pressing SPACE at any
permutation of a sequence of cursor positions yields the same selection
flags and the same get_selected_items result, which is always a sublist of
the items (insertion order); and with multi-select disabled SPACE is an
unchanged no-op. -/
theorem C4_space_involution (l : SelectableList)
    (hm : l.multi_select = true) (h : l.items ≠ [])
    (ps ps' : List Nat) (hp : ps.Perm ps') :
    ((l.handle_key .KEY_SPACE).1.handle_key .KEY_SPACE).1 = l
    ∧ (l.handle_key .KEY_SPACE).2.1 = true
    ∧ (press_space_seq l ps).selected = (press_space_seq l ps').selected
    ∧ (press_space_seq l ps).get_selected_items
        = (press_space_seq l ps').get_selected_items
    ∧ l.get_selected_items.Sublist l.items
    ∧ (∀ l' : SelectableList, l'.multi_select = false → l'.items ≠ [] →
        l'.handle_key .KEY_SPACE = (l', false, [])) := by
  have hne : l.items.isEmpty = false := by
    cases hi : l.items with
    | nil => exact absurd hi h
    | cons a as => rfl
  refine ⟨?_, ?_, ?_, ?_, ?_, ?_⟩
  · rw [handle_space_multi l hm hne]
    rw [handle_space_multi ({ l with selected := toggle_at l.selected l.cursor }) hm hne]
    rw [toggle_at_toggle_at]
  · rw [handle_space_multi l hm hne]
  · have hseq := congrArg SelectableList.selected (press_space_seq_perm hp l)
    exact hseq
  · have hseq := congrArg SelectableList.get_selected_items (press_space_seq_perm hp l)
    exact hseq
  · exact get_selected_items_zip_sublist l.items l.selected
  · intro l' hm' h'
    have hne' : l'.items.isEmpty = false := by
      cases hi : l'.items with
      | nil => exact absurd hi h'
      | cons a as => rfl
    simp [SelectableList.handle_key, hne', hm']

/-- A concrete two-item multi-select list for the C4 witness. -/
def c4_list : SelectableList :=
  { items := ["a", "b"], has_action := [false, false],
    selected := [false, false], cursor := 0,
    multi_select := true, has_on_select := false }

/-- Witness for C4 at a two-item list with toggle sequences [0,1,0] and
[1,0,0]. -/
theorem C4_space_involution_witness :
    c4_list.multi_select = true ∧ c4_list.items ≠ []
    ∧ ([0, 1, 0].Perm [1, 0, 0])
    ∧ (((c4_list.handle_key .KEY_SPACE).1.handle_key .KEY_SPACE).1 = c4_list
       ∧ (c4_list.handle_key .KEY_SPACE).2.1 = true
       ∧ (press_space_seq c4_list [0, 1, 0]).selected
           = (press_space_seq c4_list [1, 0, 0]).selected
       ∧ (press_space_seq c4_list [0, 1, 0]).get_selected_items
           = (press_space_seq c4_list [1, 0, 0]).get_selected_items
       ∧ c4_list.get_selected_items.Sublist c4_list.items
       ∧ (∀ l' : SelectableList, l'.multi_select = false → l'.items ≠ [] →
           l'.handle_key .KEY_SPACE = (l', false, []))) := by
  have hm : c4_list.multi_select = true := rfl
  have h : c4_list.items ≠ [] := by simp [c4_list]
  have hp : ([0, 1, 0] : List Nat).Perm [1, 0, 0] := by decide
  exact ⟨hm, h, hp, C4_space_involution c4_list hm h [0, 1, 0] [1, 0, 0] hp⟩

/-- A concrete three-item list for the C3 witness. -/
def c3_list : SelectableList :=
  { items := ["a", "b", "c"], has_action := [false, false, false],
    selected := [false, false, false], cursor := 0,
    multi_select := false, has_on_select := false }

/-- Witness for C3 at a three-item list with cursor 0. -/
theorem C3_list_up_down_witness :
    c3_list.items ≠ []
    ∧ ((0 < c3_list.cursor →
          c3_list.handle_key .KEY_UP
            = ({ c3_list with cursor := c3_list.cursor - 1 }, true, []))
       ∧ (c3_list.cursor = 0 → c3_list.handle_key .KEY_UP = (c3_list, false, []))
       ∧ (c3_list.cursor + 1 < c3_list.items.length →
          c3_list.handle_key .KEY_DOWN
            = ({ c3_list with cursor := c3_list.cursor + 1 }, true, []))
       ∧ (c3_list.cursor = c3_list.items.length - 1 →
          c3_list.handle_key .KEY_DOWN = (c3_list, false, []))
       ∧ (c3_list.items.length = 3 → c3_list.cursor = 0 →
           c3_list.handle_key .KEY_UP = (c3_list, false, [])
           ∧ ((c3_list.handle_key .KEY_DOWN).1.handle_key .KEY_DOWN).1.cursor = 2
           ∧ (c3_list.handle_key .KEY_DOWN).2.1 = true
           ∧ (((c3_list.handle_key .KEY_DOWN).1.handle_key .KEY_DOWN).1.handle_key
                .KEY_DOWN
               = (((c3_list.handle_key .KEY_DOWN).1.handle_key .KEY_DOWN).1,
                  false, [])))) := by
  have h : c3_list.items ≠ [] := by simp [c3_list]
  exact ⟨h, C3_list_up_down c3_list h⟩

/-- C10: on an empty list every key, ENTER and SPACE included, is an
unchanged no-op that invokes no callback; by contrast ENTER on a non-empty
list always reports changed while leaving the state unchanged, so the
always-changed ENTER rule applies only to non-empty lists. -/
theorem C10_empty_guard (l : SelectableList) (k : Key) (h : l.items = []) :
    l.handle_key k = (l, false, [])
    ∧ (∀ l' : SelectableList, l'.items ≠ [] →
        (l'.handle_key .KEY_ENTER).2.1 = true
        ∧ (l'.handle_key .KEY_ENTER).1 = l') := by
  constructor
  · simp [SelectableList.handle_key, h]
  · intro l' h'
    have hne : l'.items.isEmpty = false := by
      cases hi : l'.items with
      | nil => exact absurd hi h'
      | cons a as => rfl
    simp [SelectableList.handle_key, hne]

/-- Witness for C10 at the empty list and KEY_ENTER. -/
theorem C10_empty_guard_witness :
    ({} : SelectableList).items = []
    ∧ (({} : SelectableList).handle_key .KEY_ENTER = ({}, false, [])
       ∧ (∀ l' : SelectableList, l'.items ≠ [] →
           (l'.handle_key .KEY_ENTER).2.1 = true
           ∧ (l'.handle_key .KEY_ENTER).1 = l')) :=
  ⟨rfl, C10_empty_guard {} .KEY_ENTER rfl⟩

-- ─── Table column-width resolution (termui.hpp:200-256) ────────────────────

/-- `Table::Column` (termui.hpp:202-206): header text (a UTF-8 byte string)
and configured width, 0 meaning auto-sized to content. The `int` width is
non-negative for any constructible table, so it is modelled as `Nat`. -/
structure TableColumn where
  name : List Nat
  width : Nat
deriving DecidableEq, Repr

/-- One step of the inner row loop of `Table::render` (termui.hpp:235-239):
widen the running width to a present cell of column `c`, skip absent cells. -/
def cell_width_step (c : Nat) (w : Nat) (row : List (List Nat)) : Nat :=
  if c < row.length then max w (utf8_display_width (row.getD c [])) else w

/-- Auto width of column `c` (termui.hpp:234-240): start from the display
width of the header and widen over every present cell in the column. -/
def auto_width (c : Nat) (name : List Nat) (rows : List (List (List Nat))) : Nat :=
  rows.foldl (cell_width_step c) (utf8_display_width name)

/-- The width-resolution loop of `Table::render` (termui.hpp:229-242): a
positive configured width is used as is, width 0 is auto-sized. -/
def resolve_base_widths (columns : List TableColumn)
    (rows : List (List (List Nat))) : List Nat :=
  (List.range columns.length).map (fun c =>
    let col := columns.getD c ⟨[], 0⟩
    if 0 < col.width then col.width
    else auto_width c col.name rows)

/-- The proportional scaling step of `Table::render` (termui.hpp:245-256):
when a width limit is given and the base widths do not fit in the space left
after the 3-column " | " separators, rescale each width to
`(w * usable + total / 2) / total`, floored at 1. The C++ `int` subtraction
`available_width - separators * 3` can go negative only when the guard
`usable > 0` fails, so truncated `Nat` subtraction is behaviourally
identical. -/
def scale_widths (widths : List Nat) (available_width : Nat) : List Nat :=
  if 0 < available_width then
    let separators := widths.length - 1
    let total := widths.foldl (· + ·) 0
    let usable := available_width - separators * 3
    if 0 < usable ∧ usable < total then
      widths.map (fun w => max 1 ((w * usable + total / 2) / total))
    else widths
  else widths

/-- Modelled from the spec: rounding `num / den` half up,
`floor(num / den + 1 / 2)` as exact arithmetic. -/
def round_half_up (num den : Nat) : Nat := (2 * num + den) / (2 * den)

theorem div_add_half_eq_round_half_up (num den : Nat) (hden : 0 < den) :
    (num + den / 2) / den = round_half_up num den := by
  unfold round_half_up
  rcases Nat.even_or_odd den with ⟨k, hk⟩ | ⟨k, hk⟩
  · subst hk
    have hk0 : 0 < k := by omega
    have h2 : 2 * num + (k + k) = 2 * (num + k) := by omega
    have h4 : 2 * (k + k) = 2 * (2 * k) := by omega
    rw [h2, h4, Nat.mul_div_mul_left _ _ (by omega : (0:Nat) < 2)]
    congr 1 <;> omega
  · subst hk
    have hq := Nat.div_add_mod (num + k) (2 * k + 1)
    have hr := Nat.mod_lt (num + k) (show 0 < 2 * k + 1 by omega)
    set q := (num + k) / (2 * k + 1) with hqdef
    set r := (num + k) % (2 * k + 1) with hrdef
    have hhalf : (2 * k + 1) / 2 = k := by omega
    rw [hhalf]
    have hlin : q * (2 * (2 * k + 1)) = 2 * ((2 * k + 1) * q) := by ring
    have hnum : 2 * num + (2 * k + 1) = (2 * r + 1) + q * (2 * (2 * k + 1)) := by
      omega
    rw [hnum, Nat.add_mul_div_right _ _ (show 0 < 2 * (2 * k + 1) by omega)]
    rw [show (2 * r + 1) / (2 * (2 * k + 1)) = 0 from Nat.div_eq_of_lt (by omega)]
    omega

theorem auto_width_init_le (c : Nat) (rows : List (List (List Nat))) :
    ∀ init : Nat, init ≤ rows.foldl (cell_width_step c) init := by
  induction rows with
  | nil => intro init; exact Nat.le_refl _
  | cons row rows ih =>
    intro init
    refine Nat.le_trans ?_ (ih (cell_width_step c init row))
    unfold cell_width_step
    split
    · exact Nat.le_max_left _ _
    · exact Nat.le_refl _

theorem auto_width_cell_le (c : Nat) (rows : List (List (List Nat))) :
    ∀ init : Nat, ∀ row ∈ rows, c < row.length →
      utf8_display_width (row.getD c []) ≤ rows.foldl (cell_width_step c) init := by
  induction rows with
  | nil => intro _ row hrow; exact absurd hrow (List.not_mem_nil row)
  | cons row0 rows ih =>
    intro init row hrow hc
    rcases List.mem_cons.mp hrow with h | h
    · subst h
      refine Nat.le_trans ?_ (auto_width_init_le c rows _)
      unfold cell_width_step
      rw [if_pos hc]
      exact Nat.le_max_right _ _
    · exact ih _ row h hc

theorem auto_width_eq_some (c : Nat) (rows : List (List (List Nat))) :
    ∀ init : Nat, rows.foldl (cell_width_step c) init = init
      ∨ ∃ row ∈ rows, c < row.length ∧
          rows.foldl (cell_width_step c) init = utf8_display_width (row.getD c []) := by
  induction rows with
  | nil => intro init; exact Or.inl rfl
  | cons row0 rows ih =>
    intro init
    simp only [List.foldl_cons]
    rcases ih (cell_width_step c init row0) with h | ⟨row, hrow, hc, heq⟩
    · rw [h]
      unfold cell_width_step
      by_cases hc0 : c < row0.length
      · rw [if_pos hc0]
        rcases Nat.le_total init (utf8_display_width (row0.getD c [])) with hle | hle
        · exact Or.inr ⟨row0, List.mem_cons_self _ _, hc0, Nat.max_eq_right hle⟩
        · exact Or.inl (Nat.max_eq_left hle)
      · rw [if_neg hc0]
        exact Or.inl rfl
    · exact Or.inr ⟨row, List.mem_cons_of_mem _ hrow, hc, heq⟩

theorem resolve_base_widths_getD (columns : List TableColumn)
    (rows : List (List (List Nat))) (c : Nat) (hc : c < columns.length) :
    (resolve_base_widths columns rows).getD c 0 =
      (if 0 < (columns.getD c ⟨[], 0⟩).width then (columns.getD c ⟨[], 0⟩).width
       else auto_width c (columns.getD c ⟨[], 0⟩).name rows) := by
  unfold resolve_base_widths
  rw [List.getD_eq_getElem?_getD, List.getElem?_map, List.getElem?_range hc]
  rfl



/-- The C5 example columns: ("ID", 4) and ("Name", 0), as byte strings. -/
def c5_columns : List TableColumn :=
  [⟨[0x49, 0x44], 4⟩, ⟨[0x4E, 0x61, 0x6D, 0x65], 0⟩]

/-- The C5 example rows: ["1", "Alice"] and ["2", "Bob"], as byte strings. -/
def c5_rows : List (List (List Nat)) :=
  [[[0x31], [0x41, 0x6C, 0x69, 0x63, 0x65]], [[0x32], [0x42, 0x6F, 0x62]]]

/-- C5: an auto-sized column gets exactly the maximum of its header width
and every present cell width (stated as: the resolved width bounds header
and cells and is attained by one of them); under the scaling guard every
width is rescaled to round-half-up of w*usable/total floored at 1; and on
the concrete ID/Name example the auto width is 5 and scaling to available
width 8 gives widths [2, 3], each at least 1, summing to at most usable = 5. -/
theorem C5_table_widths (columns : List TableColumn) (rows : List (List (List Nat)))
    (c : Nat) (hc : c < columns.length) (hw : (columns.getD c ⟨[], 0⟩).width = 0)
    (widths : List Nat) (aw : Nat)
    (hpos : 0 < aw)
    (husable : 0 < aw - (widths.length - 1) * 3)
    (htotal : aw - (widths.length - 1) * 3 < widths.foldl (· + ·) 0) :
    (utf8_display_width (columns.getD c ⟨[], 0⟩).name
       ≤ (resolve_base_widths columns rows).getD c 0
     ∧ (∀ row ∈ rows, c < row.length →
         utf8_display_width (row.getD c [])
           ≤ (resolve_base_widths columns rows).getD c 0)
     ∧ ((resolve_base_widths columns rows).getD c 0
          = utf8_display_width (columns.getD c ⟨[], 0⟩).name
        ∨ ∃ row ∈ rows, c < row.length ∧
            (resolve_base_widths columns rows).getD c 0
              = utf8_display_width (row.getD c [])))
    ∧ scale_widths widths aw
        = widths.map (fun w =>
            max 1 (round_half_up (w * (aw - (widths.length - 1) * 3))
                                 (widths.foldl (· + ·) 0)))
    ∧ (resolve_base_widths c5_columns c5_rows = [4, 5]
       ∧ scale_widths [4, 5] 8 = [2, 3]
       ∧ (∀ w ∈ scale_widths [4, 5] 8, 1 ≤ w)
       ∧ (scale_widths [4, 5] 8).foldl (· + ·) 0 ≤ 8 - (2 - 1) * 3) := by
  have hres := resolve_base_widths_getD columns rows c hc
  rw [hw] at hres
  rw [if_neg (by omega)] at hres
  refine ⟨⟨?_, ?_, ?_⟩, ?_, ?_, ?_, ?_, ?_⟩
  · rw [hres]
    exact auto_width_init_le c rows _
  · intro row hrow hcl
    rw [hres]
    exact auto_width_cell_le c rows _ row hrow hcl
  · rw [hres]
    exact auto_width_eq_some c rows _
  · unfold scale_widths
    rw [if_pos hpos, if_pos ⟨husable, htotal⟩]
    refine List.map_congr_left ?_
    intro w _
    rw [div_add_half_eq_round_half_up _ _ (by omega)]
  · simp +decide [resolve_base_widths, auto_width, cell_width_step, c5_columns,
      c5_rows, utf8_display_width, utf8_char_len, utf8_lead_len, List.range_succ]
  · simp +decide [scale_widths]
  · simp +decide [scale_widths]
  · simp +decide [scale_widths]



/-- Witness for C5 at the concrete ID/Name example, column 1, widths [4, 5]
and available width 8. -/
theorem C5_table_widths_witness :
    1 < c5_columns.length
    ∧ (c5_columns.getD 1 ⟨[], 0⟩).width = 0
    ∧ 0 < 8
    ∧ 0 < 8 - (([4, 5] : List Nat).length - 1) * 3
    ∧ 8 - (([4, 5] : List Nat).length - 1) * 3 < ([4, 5] : List Nat).foldl (· + ·) 0
    ∧ ((utf8_display_width (c5_columns.getD 1 ⟨[], 0⟩).name
          ≤ (resolve_base_widths c5_columns c5_rows).getD 1 0
        ∧ (∀ row ∈ c5_rows, 1 < row.length →
            utf8_display_width (row.getD 1 [])
              ≤ (resolve_base_widths c5_columns c5_rows).getD 1 0)
        ∧ ((resolve_base_widths c5_columns c5_rows).getD 1 0
             = utf8_display_width (c5_columns.getD 1 ⟨[], 0⟩).name
           ∨ ∃ row ∈ c5_rows, 1 < row.length ∧
               (resolve_base_widths c5_columns c5_rows).getD 1 0
                 = utf8_display_width (row.getD 1 [])))
       ∧ scale_widths [4, 5] 8
           = ([4, 5] : List Nat).map (fun w =>
               max 1 (round_half_up (w * (8 - (([4, 5] : List Nat).length - 1) * 3))
                                    (([4, 5] : List Nat).foldl (· + ·) 0)))
       ∧ (resolve_base_widths c5_columns c5_rows = [4, 5]
          ∧ scale_widths [4, 5] 8 = [2, 3]
          ∧ (∀ w ∈ scale_widths [4, 5] 8, 1 ≤ w)
          ∧ (scale_widths [4, 5] 8).foldl (· + ·) 0 ≤ 8 - (2 - 1) * 3)) := by
  have hc : 1 < c5_columns.length := by decide
  have hw : (c5_columns.getD 1 ⟨[], 0⟩).width = 0 := by decide
  have h1 : (0:Nat) < 8 := by decide
  have h2 : 0 < 8 - (([4, 5] : List Nat).length - 1) * 3 := by decide
  have h3 : 8 - (([4, 5] : List Nat).length - 1) * 3
      < ([4, 5] : List Nat).foldl (· + ·) 0 := by decide
  exact ⟨hc, hw, h1, h2, h3,
    C5_table_widths c5_columns c5_rows 1 hc hw [4, 5] 8 h1 h2 h3⟩


-- ─── Text (termui.hpp:134-196) ──────────────────────────────────────────────

/-- `TextSpan` (termui.hpp:134-141): a content string with a style. -/
structure TextSpan where
  content : String
  style : Style
deriving DecidableEq, Repr

/-- `Text` (termui.hpp:143-196): an ordered sequence of styled spans. -/
structure Text where
  spans : List TextSpan := []
deriving DecidableEq, Repr

/-- A run of `n` copies of `s`, appended left to right exactly as the
character-building loops of the source do. -/
def repeat_str (s : String) : Nat → String
  | 0 => ""
  | n + 1 => repeat_str s n ++ s

-- ─── ProgressBar (termui.hpp:322-373) ───────────────────────────────────────

/-- `ProgressBar` state (termui.hpp:369-372). The C++ `double` value is
modelled as an exact rational; the value is 0 at construction and clamped
into [0, 1] by every `set_value`, so it is non-negative in every reachable
state and the `static_cast<int>` truncations in `render` coincide with the
floor. -/
structure ProgressBar where
  value : ℚ := 0
  fill : Color := .Green
  empty : Color := .Default
deriving DecidableEq, Repr

/-- `ProgressBar::set_value` (termui.hpp:328-331): clamp into [0, 1]. -/
def ProgressBar.set_value (b : ProgressBar) (v : ℚ) : ProgressBar :=
  { b with value := if v < 0 then 0 else if v > 1 then 1 else v }

/-- The width fixup of `ProgressBar::render` (termui.hpp:344): a
non-positive width becomes 1. -/
def bar_width (width : Int) : Int := if width ≤ 0 then 1 else width

/-- `filled` of `ProgressBar::render` (termui.hpp:345):
`static_cast<int>(value * width + 0.5)`, the floor for the non-negative
values that occur. -/
def bar_filled (value : ℚ) (width : Int) : Int :=
  ⌊value * (bar_width width : ℚ) + 1/2⌋

/-- `empty` of `ProgressBar::render` (termui.hpp:346). -/
def bar_empty (value : ℚ) (width : Int) : Int :=
  bar_width width - bar_filled value width

/-- `pct` of `ProgressBar::render` (termui.hpp:358). -/
def bar_pct (value : ℚ) : Int := ⌊value * 100 + 1/2⌋

/-- `ProgressBar::render` (termui.hpp:343-367): bracket, a run of full
blocks in the fill color (omitted when empty), a run of light shades in the
empty color (omitted when empty), closing bracket, percentage label in
bold. -/
def ProgressBar.render (b : ProgressBar) (width : Int) : Text :=
  let filled_chars := repeat_str "█" (bar_filled b.value width).toNat
  let empty_chars := repeat_str "░" (bar_empty b.value width).toNat
  { spans :=
      [⟨"[", { fg := .BrightBlack }⟩]
      ++ (if filled_chars ≠ "" then [⟨filled_chars, { fg := b.fill }⟩] else [])
      ++ (if empty_chars ≠ "" then [⟨empty_chars, { fg := b.empty }⟩] else [])
      ++ [⟨"] ", { fg := .BrightBlack }⟩,
          ⟨toString (bar_pct b.value) ++ "%", Style.bold {}⟩] }

/-- Modelled from the spec: round-half-up of a rational,
`floor(q + 1 / 2)`. -/
def round_half_up_q (q : ℚ) : Int := ⌊q + 1/2⌋




theorem bar_width_ge_one (w : Int) : 1 ≤ bar_width w := by
  unfold bar_width
  split <;> omega

theorem set_value_clamped (b : ProgressBar) (v : ℚ) :
    0 ≤ (b.set_value v).value ∧ (b.set_value v).value ≤ 1 := by
  unfold ProgressBar.set_value
  split
  · next h => constructor <;> norm_num
  · next h =>
    split
    · next h2 => constructor <;> norm_num
    · next h2 =>
      simp only
      constructor <;> [linarith [not_lt.mp h]; linarith [not_lt.mp h2]]


theorem bar_filled_bounds (v : ℚ) (w : Int) (h0 : 0 ≤ v) (h1 : v ≤ 1) :
    0 ≤ bar_filled v w ∧ bar_filled v w ≤ bar_width w := by
  have hW : 1 ≤ bar_width w := bar_width_ge_one w
  have hWQ : (1 : ℚ) ≤ (bar_width w : ℚ) := by exact_mod_cast hW
  constructor
  · rw [bar_filled, Int.le_floor]
    rw [Int.cast_zero]
    nlinarith
  · rw [bar_filled, Int.floor_le_iff]
    nlinarith


/-- C6: set_value clamps every input into [0, 1]; rendering uses
filled = round-half-up(value * width) and empty = width - filled columns and
the label round-half-up(value * 100) percent; value 0 renders an all-empty
bar with 0 percent, value 1 an all-filled bar with 100 percent, and value
0.445 at width 10 renders 4 filled columns with a 45 percent label. -/
theorem C6_progress_bar (b : ProgressBar) (v : ℚ) (w : Int) :
    (0 ≤ (b.set_value v).value ∧ (b.set_value v).value ≤ 1)
    ∧ bar_filled (b.set_value v).value w
        = round_half_up_q ((b.set_value v).value * (bar_width w : ℚ))
    ∧ bar_empty (b.set_value v).value w
        = bar_width w - bar_filled (b.set_value v).value w
    ∧ bar_pct (b.set_value v).value
        = round_half_up_q ((b.set_value v).value * 100)
    ∧ (0 ≤ bar_filled (b.set_value v).value w
       ∧ bar_filled (b.set_value v).value w ≤ bar_width w
       ∧ bar_filled (b.set_value v).value w + bar_empty (b.set_value v).value w
           = bar_width w)
    ∧ ((b.set_value 0).render 10
        = ⟨[⟨"[", { fg := .BrightBlack }⟩,
            ⟨repeat_str "░" 10, { fg := b.empty }⟩,
            ⟨"] ", { fg := .BrightBlack }⟩,
            ⟨"0%", Style.bold {}⟩]⟩)
    ∧ ((b.set_value 1).render 10
        = ⟨[⟨"[", { fg := .BrightBlack }⟩,
            ⟨repeat_str "█" 10, { fg := b.fill }⟩,
            ⟨"] ", { fg := .BrightBlack }⟩,
            ⟨"100%", Style.bold {}⟩]⟩)
    ∧ bar_filled (b.set_value 0.445).value 10 = 4
    ∧ ((b.set_value 0.445).render 10
        = ⟨[⟨"[", { fg := .BrightBlack }⟩,
            ⟨repeat_str "█" 4, { fg := b.fill }⟩,
            ⟨repeat_str "░" 6, { fg := b.empty }⟩,
            ⟨"] ", { fg := .BrightBlack }⟩,
            ⟨"45%", Style.bold {}⟩]⟩) := by
  obtain ⟨hc0, hc1⟩ := set_value_clamped b v
  have hv0 : (b.set_value 0).value = 0 := by simp [ProgressBar.set_value]
  have hv1 : (b.set_value 1).value = 1 := by norm_num [ProgressBar.set_value]
  have hv445 : (b.set_value 0.445).value = 89/200 := by
    norm_num [ProgressBar.set_value]
  refine ⟨⟨hc0, hc1⟩, rfl, rfl, rfl, ?_, ?_, ?_, ?_, ?_⟩
  · obtain ⟨hlo, hhi⟩ := bar_filled_bounds _ w hc0 hc1
    refine ⟨hlo, hhi, ?_⟩
    unfold bar_empty
    omega
  · unfold ProgressBar.render
    rw [hv0]
    rw [show bar_filled 0 10 = 0 by norm_num [bar_filled, bar_width]]
    rw [show bar_empty 0 10 = 10 by
      norm_num [bar_empty, bar_filled, bar_width]]
    rw [show bar_pct 0 = 0 by norm_num [bar_pct]]
    simp +decide [repeat_str, ProgressBar.set_value]
  · unfold ProgressBar.render
    rw [hv1]
    rw [show bar_filled 1 10 = 10 by norm_num [bar_filled, bar_width]]
    rw [show bar_empty 1 10 = 0 by
      norm_num [bar_empty, bar_filled, bar_width]]
    rw [show bar_pct 1 = 100 by norm_num [bar_pct]]
    simp +decide [repeat_str, ProgressBar.set_value]
  · rw [hv445]
    norm_num [bar_filled, bar_width]
  · unfold ProgressBar.render
    rw [hv445]
    rw [show bar_filled (89/200) 10 = 4 by norm_num [bar_filled, bar_width]]
    rw [show bar_empty (89/200) 10 = 6 by
      norm_num [bar_empty, bar_filled, bar_width]]
    rw [show bar_pct (89/200) = 45 by norm_num [bar_pct]]
    simp +decide [repeat_str, ProgressBar.set_value]


-- ─── Page (termui.hpp:742-816) ──────────────────────────────────────────────

/-- `Page` state (termui.hpp:810-815): static styled lines, an `int` scroll
offset, and an optional attached `SelectableList`. -/
structure Page where
  title : String := ""
  lines : List Text := []
  scroll : Int := 0
  has_list : Bool := false
  list : SelectableList := {}
deriving DecidableEq, Repr

/-- `Page::total_lines` (termui.hpp:803-808): static line count plus, when a
list is attached, its item count. -/
def Page.total_lines (p : Page) : Int :=
  (p.lines.length : Int) + (if p.has_list then (p.list.items.length : Int) else 0)

/-- `Page::scroll_up` (termui.hpp:789-791). -/
def Page.scroll_up (p : Page) (n : Int) : Page :=
  { p with scroll := max 0 (p.scroll - n) }

/-- `Page::scroll_down` (termui.hpp:793-797). -/
def Page.scroll_down (p : Page) (n : Int) (visible_rows : Int) : Page :=
  let effective_rows := if 0 < visible_rows then visible_rows else p.total_lines
  let max_scroll := max 0 (p.total_lines - effective_rows)
  { p with scroll := min (p.scroll + n) max_scroll }

/-- A page with 10 static lines (total_lines = 10) for the C7 concrete
trace. -/
def c7_page : Page := { lines := List.replicate 10 {} }

/-- C7: scroll_up sets max(0, scroll - n); with positive visible_rows,
scroll_down sets min(scroll + n, max(0, total_lines - visible_rows)); both
operations keep 0 <= scroll <= max(0, total_lines - visible_rows) when it
held before and n is non-negative; and on a page with 10 total lines and
visible_rows 4, scroll_down 100 clamps the scroll to 6 and a scroll_up 100
from there clamps it to 0. -/
theorem C7_page_scroll (p : Page) (n vr : Int) (hn : 0 ≤ n) (hvr : 0 < vr)
    (hs0 : 0 ≤ p.scroll) (hsb : p.scroll ≤ max 0 (p.total_lines - vr)) :
    (p.scroll_up n).scroll = max 0 (p.scroll - n)
    ∧ (p.scroll_down n vr).scroll
        = min (p.scroll + n) (max 0 (p.total_lines - vr))
    ∧ (0 ≤ (p.scroll_up n).scroll
       ∧ (p.scroll_up n).scroll ≤ max 0 (p.total_lines - vr))
    ∧ (0 ≤ (p.scroll_down n vr).scroll
       ∧ (p.scroll_down n vr).scroll ≤ max 0 (p.total_lines - vr))
    ∧ ((c7_page.scroll_down 100 4).scroll = 6
       ∧ ((c7_page.scroll_down 100 4).scroll_up 100).scroll = 0) := by
  refine ⟨rfl, ?_, ?_, ?_, ?_, ?_⟩
  · simp only [Page.scroll_down, if_pos hvr]
  · simp only [Page.scroll_up]
    omega
  · simp only [Page.scroll_down, if_pos hvr]
    omega
  · decide
  · decide

/-- Witness for C7 at the 10-line page, n = 100, visible_rows = 4, scroll
0. -/
theorem C7_page_scroll_witness :
    (0 : Int) ≤ 100 ∧ (0 : Int) < 4 ∧ 0 ≤ c7_page.scroll
    ∧ c7_page.scroll ≤ max 0 (c7_page.total_lines - 4)
    ∧ ((c7_page.scroll_up 100).scroll = max 0 (c7_page.scroll - 100)
       ∧ (c7_page.scroll_down 100 4).scroll
           = min (c7_page.scroll + 100) (max 0 (c7_page.total_lines - 4))
       ∧ (0 ≤ (c7_page.scroll_up 100).scroll
          ∧ (c7_page.scroll_up 100).scroll ≤ max 0 (c7_page.total_lines - 4))
       ∧ (0 ≤ (c7_page.scroll_down 100 4).scroll
          ∧ (c7_page.scroll_down 100 4).scroll
              ≤ max 0 (c7_page.total_lines - 4))
       ∧ ((c7_page.scroll_down 100 4).scroll = 6
          ∧ ((c7_page.scroll_down 100 4).scroll_up 100).scroll = 0)) := by
  have h1 : (0 : Int) ≤ 100 := by norm_num
  have h2 : (0 : Int) < 4 := by norm_num
  have h3 : 0 ≤ c7_page.scroll := by norm_num [c7_page]
  have h4 : c7_page.scroll ≤ max 0 (c7_page.total_lines - 4) := by
    simp [c7_page, Page.total_lines]
  exact ⟨h1, h2, h3, h4, C7_page_scroll c7_page 100 4 h1 h2 h3 h4⟩


-- ─── App key dispatch (termui.hpp:820-954) ──────────────────────────────────

/-- `App` state (termui.hpp:876-879): the pages, the active tab index, the
tab-bar scroll offset and the running flag. `size_t` indices are `Nat`. The
render pipeline performs terminal output only, so it is not part of the
state transition. -/
structure App where
  pages : List Page := []
  active_tab : Nat := 0
  tab_offset : Nat := 0
  running : Bool := true
deriving DecidableEq, Repr

/-- `App::handle_key` (termui.hpp:911-954). `term_rows` stands for the
`get_terminal_size().rows` query made in the KEY_DOWN branch. The C++
short-circuit `p.has_list() && p.list().handle_key(key)` calls the list
handler only when a list is attached; `SelectableList.handle_key` is pure
and leaves the state unchanged whenever it reports unchanged, so evaluating
it unconditionally and writing the state back only on consumption is
equivalent. -/
def App.handle_key (a : App) (term_rows : Int) (key : Key) : App :=
  if key = .KEY_NONE then a
  else if key = .KEY_QUIT ∨ key = .KEY_CTRL_C then { a with running := false }
  else if key = .KEY_RESIZE then a
  else
    let p := a.pages.getD a.active_tab {}
    let res := p.list.handle_key key
    if p.has_list ∧ res.2.1 then
      { a with pages := a.pages.set a.active_tab { p with list := res.1 } }
    else
      match key with
      | .KEY_LEFT =>
        if 0 < a.active_tab then
          let nt := a.active_tab - 1
          { a with active_tab := nt,
                   tab_offset := if nt < a.tab_offset then nt else a.tab_offset }
        else a
      | .KEY_RIGHT =>
        if a.active_tab + 1 < a.pages.length then
          { a with active_tab := a.active_tab + 1 }
        else a
      | .KEY_UP =>
        { a with pages := a.pages.set a.active_tab (p.scroll_up 1) }
      | .KEY_DOWN =>
        let content_rows := max 1 (term_rows - 3)
        { a with pages := a.pages.set a.active_tab (p.scroll_down 1 content_rows) }
      | _ => a

theorem list_never_consumes_arrows (l : SelectableList) :
    l.handle_key .KEY_RIGHT = (l, false, [])
    ∧ l.handle_key .KEY_LEFT = (l, false, []) := by
  constructor <;> (unfold SelectableList.handle_key; split <;> rfl)

/-- The tab moves that `App::handle_key` performs on KEY_RIGHT
(termui.hpp:937-938), given that a list never consumes LEFT or RIGHT. -/
theorem app_handle_right (a : App) (rows : Int) :
    a.handle_key rows .KEY_RIGHT =
      (if a.active_tab + 1 < a.pages.length then
        { a with active_tab := a.active_tab + 1 }
      else a) := by
  have hR := (list_never_consumes_arrows ((a.pages.getD a.active_tab {}).list)).1
  simp only [List.getD_eq_getElem?_getD] at hR
  simp +decide [App.handle_key, hR]

/-- The tab moves that `App::handle_key` performs on KEY_LEFT
(termui.hpp:930-936). -/
theorem app_handle_left (a : App) (rows : Int) :
    a.handle_key rows .KEY_LEFT =
      (if 0 < a.active_tab then
        { a with active_tab := a.active_tab - 1,
                 tab_offset := if a.active_tab - 1 < a.tab_offset
                               then a.active_tab - 1 else a.tab_offset }
      else a) := by
  have hL := (list_never_consumes_arrows ((a.pages.getD a.active_tab {}).list)).2
  simp only [List.getD_eq_getElem?_getD] at hL
  simp +decide [App.handle_key, hL]

/-- A two-page app (pages "A" and "B", no lists) for the C9 trace. -/
def c9_app : App := { pages := [{ title := "A" }, { title := "B" }] }

/-- C9: a key that the active page list does not consume moves the active
tab; LEFT and RIGHT are never consumed by a list, and they move the active
tab by one, clamped at the ends without wraparound; on the two-page app,
RIGHT moves the active tab to 1, a second RIGHT is a no-op, and LEFT, LEFT
clamps the active tab at 0. -/
theorem C9_app_tab_navigation (a : App) (rows : Int) (l : SelectableList) :
    (l.handle_key .KEY_RIGHT = (l, false, [])
     ∧ l.handle_key .KEY_LEFT = (l, false, []))
    ∧ (a.handle_key rows .KEY_RIGHT).active_tab
        = (if a.active_tab + 1 < a.pages.length then a.active_tab + 1
           else a.active_tab)
    ∧ (a.handle_key rows .KEY_LEFT).active_tab
        = (if 0 < a.active_tab then a.active_tab - 1 else a.active_tab)
    ∧ ((c9_app.handle_key rows .KEY_RIGHT).active_tab = 1
       ∧ ((c9_app.handle_key rows .KEY_RIGHT).handle_key rows
            .KEY_RIGHT).active_tab = 1
       ∧ ((((c9_app.handle_key rows .KEY_RIGHT).handle_key rows
              .KEY_RIGHT).handle_key rows .KEY_LEFT).handle_key rows
            .KEY_LEFT).active_tab = 0) := by
  have e1 : c9_app.handle_key rows .KEY_RIGHT = { c9_app with active_tab := 1 } := by
    rw [app_handle_right]; decide
  have e2 : ({ c9_app with active_tab := 1 } : App).handle_key rows .KEY_RIGHT
      = { c9_app with active_tab := 1 } := by
    rw [app_handle_right]; decide
  have e3 : ({ c9_app with active_tab := 1 } : App).handle_key rows .KEY_LEFT
      = { c9_app with active_tab := 0 } := by
    rw [app_handle_left]; decide
  have e4 : ({ c9_app with active_tab := 0 } : App).handle_key rows .KEY_LEFT
      = { c9_app with active_tab := 0 } := by
    rw [app_handle_left]; decide
  refine ⟨list_never_consumes_arrows l, ?_, ?_, ?_⟩
  · rw [app_handle_right]
    split <;> rfl
  · rw [app_handle_left]
    split <;> rfl
  · rw [e1, e2, e3, e4]
    exact ⟨rfl, rfl, rfl⟩

-- ─── FileBrowser directory sorting (termui.hpp:1157, 1200-1243) ────────────

/-- `FileBrowser::Entry` (termui.hpp:1157). -/
structure Entry where
  name : String
  is_dir : Bool
deriving DecidableEq, Repr

/-- Lexicographic strict comparison of codepoint sequences. For valid UTF-8,
comparing codepoints lexicographically is identical to the byte-wise
`std::string operator<` used by the sort comparator, because UTF-8 encoding
preserves codepoint order. -/
def charsLT : List Char → List Char → Bool
  | _, [] => false
  | [], _ :: _ => true
  | a :: as, b :: bs =>
    if a.toNat < b.toNat then true
    else if b.toNat < a.toNat then false
    else charsLT as bs

/-- `a.name < b.name` on `std::string` (case-sensitive ordinary ordering). -/
def string_lt (a b : String) : Bool := charsLT a.data b.data

/-- The `std::sort` comparator of `FileBrowser::list_directory`
(termui.hpp:1202-1206): directories before files, alphabetical within each
group. -/
def entry_lt (a b : Entry) : Bool :=
  if a.is_dir ≠ b.is_dir then a.is_dir && !b.is_dir
  else string_lt a.name b.name

/-- The non-strict order induced by the comparator: `a` may come before `b`
exactly when `b` is not strictly before `a`. -/
def entry_le (a b : Entry) : Prop := entry_lt b a = false

instance entry_le_decidable : DecidableRel entry_le := fun a b => by
  unfold entry_le
  infer_instance

/-- The `std::sort` call of `list_directory` (termui.hpp:1202-1206).
Comparator-equivalent entries are equal (same flag and same name), so every
comparison sort produces the same list; the sort is modelled by insertion
sort. -/
def sortEntries (es : List Entry) : List Entry := List.insertionSort entry_le es

theorem charsLT_trichot : ∀ a b : List Char,
    charsLT a b = true ∨ a = b ∨ charsLT b a = true := by
  intro a
  induction a with
  | nil =>
    intro b
    cases b with
    | nil => exact Or.inr (Or.inl rfl)
    | cons y ys => exact Or.inl rfl
  | cons x xs ih =>
    intro b
    cases b with
    | nil => exact Or.inr (Or.inr rfl)
    | cons y ys =>
      by_cases hxy : x.toNat < y.toNat
      · exact Or.inl (by simp [charsLT, hxy])
      · by_cases hyx : y.toNat < x.toNat
        · exact Or.inr (Or.inr (by simp [charsLT, hyx]))
        · have htn : x.toNat = y.toNat := by omega
          have hxyeq : x = y := Char.ext (UInt32.ext htn)
          subst hxyeq
          rcases ih ys with h | h | h
          · exact Or.inl (by simp [charsLT, h])
          · exact Or.inr (Or.inl (by rw [h]))
          · exact Or.inr (Or.inr (by simp [charsLT, h]))

theorem charsLT_asymm : ∀ a b : List Char,
    charsLT a b = true → charsLT b a = false := by
  intro a
  induction a with
  | nil =>
    intro b h
    cases b with
    | nil => simp [charsLT] at h
    | cons y ys => simp [charsLT]
  | cons x xs ih =>
    intro b h
    cases b with
    | nil => simp [charsLT] at h
    | cons y ys =>
      simp only [charsLT] at h ⊢
      by_cases hxy : x.toNat < y.toNat
      · rw [if_neg (by omega), if_pos hxy]
      · rw [if_neg hxy] at h
        by_cases hyx : y.toNat < x.toNat
        · rw [if_pos hyx] at h
          exact absurd h (by simp)
        · rw [if_neg hyx] at h
          rw [if_neg hyx, if_neg hxy]
          exact ih ys h

theorem charsLT_trans : ∀ a b c : List Char,
    charsLT a b = true → charsLT b c = true → charsLT a c = true := by
  intro a
  induction a with
  | nil =>
    intro b c hab hbc
    cases c with
    | nil =>
      cases b with
      | nil => exact hab
      | cons y ys => simp [charsLT] at hbc
    | cons z zs => simp [charsLT]
  | cons x xs ih =>
    intro b c hab hbc
    cases b with
    | nil => simp [charsLT] at hab
    | cons y ys =>
      cases c with
      | nil => simp [charsLT] at hbc
      | cons z zs =>
        simp only [charsLT] at hab hbc ⊢
        by_cases hxy : x.toNat < y.toNat <;> by_cases hyz : y.toNat < z.toNat
        · rw [if_pos (by omega)]
        · rw [if_neg hyz] at hbc
          by_cases hzy : z.toNat < y.toNat
          · rw [if_pos hzy] at hbc
            exact absurd hbc (by simp)
          · rw [if_neg hzy] at hbc
            have : y.toNat = z.toNat := by omega
            rw [if_pos (by omega)]
        · rw [if_neg hxy] at hab
          by_cases hyx : y.toNat < x.toNat
          · rw [if_pos hyx] at hab
            exact absurd hab (by simp)
          · rw [if_neg hyx] at hab
            rw [if_pos (by omega)]
        · rw [if_neg hxy] at hab
          by_cases hyx : y.toNat < x.toNat
          · rw [if_pos hyx] at hab
            exact absurd hab (by simp)
          · rw [if_neg hyx] at hab
            rw [if_neg hyz] at hbc
            by_cases hzy : z.toNat < y.toNat
            · rw [if_pos hzy] at hbc
              exact absurd hbc (by simp)
            · rw [if_neg hzy] at hbc
              have hxz : ¬ x.toNat < z.toNat := by omega
              have hzx : ¬ z.toNat < x.toNat := by omega
              rw [if_neg hxz, if_neg hzx]
              exact ih ys zs hab hbc

theorem charsLT_neg_trans (a b c : List Char)
    (hba : charsLT b a = false) (hcb : charsLT c b = false) :
    charsLT c a = false := by
  by_cases hca : charsLT c a = true
  · exfalso
    rcases charsLT_trichot a b with h | h | h
    · rcases charsLT_trichot b c with h2 | h2 | h2
      · have hac := charsLT_trans _ _ _ h h2
        have haa := charsLT_trans _ _ _ hac hca
        have h0 := charsLT_asymm _ _ haa
        rw [h0] at haa
        exact Bool.noConfusion haa
      · subst h2
        rw [hba] at hca
        exact Bool.noConfusion hca
      · rw [hcb] at h2
        exact Bool.noConfusion h2
    · subst h
      rw [hcb] at hca
      exact Bool.noConfusion hca
    · rw [hba] at h
      exact Bool.noConfusion h
  · exact eq_false_of_ne_true hca



theorem entry_lt_asymm (a b : Entry) (h : entry_lt a b = true) :
    entry_lt b a = false := by
  unfold entry_lt at h ⊢
  cases ha : a.is_dir <;> cases hb : b.is_dir <;>
    rw [ha, hb] at h <;> simp_all [string_lt] <;>
    exact charsLT_asymm _ _ h

instance entry_le_total : IsTotal Entry entry_le := by
  constructor
  intro a b
  unfold entry_le
  by_cases h : entry_lt b a = true
  · exact Or.inr (entry_lt_asymm b a h)
  · exact Or.inl (eq_false_of_ne_true h)

instance entry_le_trans : IsTrans Entry entry_le := by
  constructor
  intro a b c hab hbc
  unfold entry_le at hab hbc ⊢
  unfold entry_lt at hab hbc ⊢
  cases ha : a.is_dir <;> cases hb : b.is_dir <;> cases hc : c.is_dir <;>
    rw [ha, hb] at hab <;> rw [hb, hc] at hbc <;> simp_all [string_lt] <;>
    exact charsLT_neg_trans _ _ _ hab hbc

/-- The C8 example enumeration result: b (dir), a (file), z (dir). -/
def c8_entries : List Entry := [⟨"b", true⟩, ⟨"a", false⟩, ⟨"z", true⟩]

/-- The list items built by `FileBrowser::navigate_to` (termui.hpp:1225-1243):
a leading parent entry, then one item per directory of the sorted listing
(name plus slash), then one item per file. -/
def browser_list_items (entries : List Entry) : List String :=
  "../" :: (((sortEntries entries).filter (fun e => e.is_dir)).map
              (fun e => e.name ++ "/")
            ++ ((sortEntries entries).filter (fun e => !e.is_dir)).map
              (fun e => e.name))

/-- C8: the directory listing is sorted directories-first and alphabetically
within each group with respect to the comparator order; the example
enumeration [b dir, a file, z dir] sorts to [b dir, z dir, a file]; and the
final entry order after the leading parent item is b/, z/, a. -/
theorem C8_browser_sort (es : List Entry) :
    List.Sorted entry_le (sortEntries es)
    ∧ sortEntries c8_entries = [⟨"b", true⟩, ⟨"z", true⟩, ⟨"a", false⟩]
    ∧ browser_list_items c8_entries = ["../", "b/", "z/", "a"] := by
  refine ⟨List.sorted_insertionSort entry_le es, ?_, ?_⟩
  · decide
  · decide


end termui
